import Mathlib

/-!
Verification of the CreativEase context-detection pipeline.

The development shallowly embeds the pipeline found in
`src/electron/ContextHelper.ts` and `src/electron/PermissionsHelper.ts`:

* the pure signal classifier (`detectCreativeSoftware`, `extractUIElements`,
  `extractPanels`) is embedded as pure Lean functions over `List Char`
  (JavaScript `String.prototype.includes` becomes list-infix containment,
  `toLowerCase` becomes `Char.toLower` mapped over the characters, and the
  floating-point confidence ratio becomes the exact rational `ℚ`);
* the effectful pipeline (`captureAndAnalyzeContext`) and the permission
  helper (`handlePermissionForContextCapture`) are embedded as functions of
  an explicit environment describing the outcome of every external call
  (permission query, throwaway capture, screenshot, OCR init, recognition),
  returning the result together with the list of external actions performed.
-/

namespace CreativEase

/-- `text.toLowerCase()` from the JS source, character-wise. -/
def lowerText (text : List Char) : List Char :=
  text.map Char.toLower

/-- One entry of the `softwarePatterns` catalogue in
`ContextHelper.detectCreativeSoftware`. -/
structure SoftwareSig where
  name : String
  patterns : List (List Char)
  deriving DecidableEq

/-- The `softwarePatterns` catalogue, in source declaration order
(`ContextHelper.ts` lines 35–44). -/
def softwarePatterns : List SoftwareSig :=
  [⟨"Adobe Premiere Pro",
    ["premiere".toList, "timeline".toList, "lumetri".toList,
     "essential graphics".toList, "sequence".toList]⟩,
   ⟨"DaVinci Resolve",
    ["davinci".toList, "resolve".toList, "color".toList, "fusion".toList,
     "fairlight".toList, "deliver".toList]⟩,
   ⟨"Adobe Photoshop",
    ["photoshop".toList, "layers".toList, "brush".toList, "filter".toList,
     "adjustment".toList]⟩,
   ⟨"Adobe After Effects",
    ["after effects".toList, "composition".toList, "timeline".toList,
     "effects".toList, "precomp".toList]⟩,
   ⟨"Adobe Illustrator",
    ["illustrator".toList, "artboard".toList, "pen tool".toList,
     "pathfinder".toList, "stroke".toList]⟩,
   ⟨"Final Cut Pro",
    ["final cut".toList, "event".toList, "project".toList, "blade".toList,
     "magnetic timeline".toList]⟩,
   ⟨"Adobe Lightroom",
    ["lightroom".toList, "develop".toList, "library".toList,
     "histogram".toList, "tone curve".toList]⟩,
   ⟨"Logic Pro",
    ["logic pro".toList, "track area".toList, "mixer".toList,
     "library".toList, "score editor".toList]⟩]

/-- The `matches` counter of the inner loop of `detectCreativeSoftware`:
how many of the given patterns occur as substrings of the (already
lower-cased) text. -/
def countMatches (lt : List Char) (patterns : List (List Char)) : Nat :=
  (patterns.filter (fun pattern => decide (pattern <:+: lt))).length

/-- `matches / sw.patterns.length`, the per-signature confidence. -/
def score (lt : List Char) (sw : SoftwareSig) : ℚ :=
  (countMatches lt sw.patterns : ℚ) / (sw.patterns.length : ℚ)

/-- The `bestMatch` record threaded through `detectCreativeSoftware`. -/
structure Detection where
  software : String
  confidence : ℚ
  deriving DecidableEq

/-- One iteration of the `for (const sw of softwarePatterns)` loop:
`if (confidence > bestMatch.confidence) bestMatch = { software, confidence }`. -/
def detectStep (lt : List Char) (best : Detection) (sw : SoftwareSig) : Detection :=
  if best.confidence < score lt sw then ⟨sw.name, score lt sw⟩ else best

/-- `ContextHelper.detectCreativeSoftware` (lines 34–64): fold the update
step over the catalogue, starting from `{ software: 'Unknown', confidence: 0 }`. -/
def detectCreativeSoftware (text : List Char) : Detection :=
  List.foldl (detectStep (lowerText text)) ⟨"Unknown", 0⟩ softwarePatterns

/-- The `uiPatterns` catalogue of `extractUIElements` (lines 67–90), in
source order; note `'project panel'` is declared twice in the source. -/
def uiPatterns : List (List Char) :=
  ["timeline".toList, "inspector".toList, "browser".toList, "viewer".toList,
   "canvas".toList, "toolbar".toList, "panel".toList, "window".toList,
   "program monitor".toList, "source monitor".toList, "project panel".toList,
   "effect controls".toList, "lumetri color".toList,
   "essential graphics".toList, "essential sound".toList, "sequence".toList,
   "media browser".toList,
   "media pool".toList, "timeline viewer".toList, "inspector panel".toList,
   "color wheels".toList, "nodes".toList, "gallery".toList,
   "scopes".toList, "mixer".toList, "fairlight".toList, "fusion page".toList,
   "edit page".toList, "color page".toList,
   "layers panel".toList, "properties panel".toList, "history panel".toList,
   "brush panel".toList, "color panel".toList,
   "channels".toList, "paths".toList, "adjustment layers".toList,
   "filter gallery".toList,
   "composition panel".toList, "project panel".toList, "timeline panel".toList,
   "effect controls panel".toList,
   "character panel".toList, "paragraph panel".toList, "align panel".toList,
   "tracker panel".toList,
   "play".toList, "pause".toList, "stop".toList, "record".toList,
   "zoom".toList, "scale".toList, "rotate".toList, "position".toList,
   "opacity".toList, "blend mode".toList, "mask".toList, "keyframe".toList,
   "transition".toList, "effect".toList]

/-- The `panelPatterns` catalogue of `extractPanels` (lines 105–111). -/
def panelPatterns : List (List Char) :=
  ["project panel".toList, "timeline panel".toList, "program monitor".toList,
   "source monitor".toList,
   "effect controls".toList, "lumetri color".toList,
   "essential graphics".toList, "essential sound".toList,
   "media pool".toList, "inspector".toList, "color wheels".toList,
   "scopes".toList, "mixer".toList,
   "layers panel".toList, "properties panel".toList, "history panel".toList,
   "tools panel".toList,
   "color panel".toList, "swatches panel".toList, "brush panel".toList,
   "character panel".toList]

/-- JavaScript `[...new Set(xs)]`: remove duplicates keeping the first
occurrence of each value, preserving insertion order. `seen` is the set of
values already emitted. -/
def dedupAux {α : Type} [DecidableEq α] (seen : List α) : List α → List α
  | [] => []
  | a :: l => if a ∈ seen then dedupAux seen l else a :: dedupAux (a :: seen) l

/-- `ContextHelper.extractUIElements` (lines 66–102): collect the catalogue
entries occurring in the lower-cased text, then `[...new Set(...)]`. -/
def extractUIElements (text : List Char) : List (List Char) :=
  dedupAux [] (uiPatterns.filter (fun element => decide (element <:+: lowerText text)))

/-- `ContextHelper.extractPanels` (lines 104–123): collect the catalogue
entries occurring in the lower-cased text (no dedup step in the source). -/
def extractPanels (text : List Char) : List (List Char) :=
  panelPatterns.filter (fun panel => decide (panel <:+: lowerText text))

/-- The `ContextData` record of `ContextHelper.ts`. -/
structure ContextData where
  software : String
  confidence : ℚ
  panels : List (List Char)
  text_content : List Char
  screenshot_path : List Char
  ui_elements : List (List Char)
  deriving DecidableEq

/-- Environment of `PermissionsHelper`: the outcome of each external call.
`none` for a query models the underlying call throwing. -/
structure PermEnv where
  platformDarwin : Bool
  mediaStatus : Option Bool
  captureAttemptOk : Bool
  unlinkOk : Bool
  mediaStatusRequery : Option Bool

/-- External actions the permission helper can perform. -/
inductive PermEffect where
  | queryStatus
  | throwawayCapture
  | unlinkTemp
  | requeryStatus
  deriving DecidableEq

/-- `PermissionsHelper.checkScreenCapturePermission` (lines 5–20): `true` off
macOS; on macOS the media-access query, with a thrown query treated as not
granted (fail-closed). -/
def checkScreenCapturePermission (darwin : Bool) (status : Option Bool) : Bool :=
  if darwin then
    match status with
    | some granted => granted
    | none => false
  else true

/-- `PermissionsHelper.handlePermissionForContextCapture`, first copy
(lines 33–64): if not granted on macOS, attempt a throwaway capture to
trigger the consent dialog, delete the temp file (failure ignored), and
re-query; a failed capture attempt yields `false`. Returns the result
paired with the trace of external actions performed. -/
def handlePermissionForContextCapture (env : PermEnv) : Bool × List PermEffect :=
  let hasPermission := checkScreenCapturePermission env.platformDarwin env.mediaStatus
  if !hasPermission && env.platformDarwin then
    if env.captureAttemptOk then
      (checkScreenCapturePermission env.platformDarwin env.mediaStatusRequery,
       [PermEffect.queryStatus, PermEffect.throwawayCapture,
        PermEffect.unlinkTemp, PermEffect.requeryStatus])
    else
      (false, [PermEffect.queryStatus, PermEffect.throwawayCapture])
  else
    (hasPermission, [PermEffect.queryStatus])

/-- `PermissionsHelper.handlePermissionForContextCapture`, second copy
(lines 104–113 of the packed file): only logs when not granted and returns
the initial check result, with no throwaway capture and no re-query. -/
def handlePermissionForContextCaptureV2 (env : PermEnv) : Bool × List PermEffect :=
  (checkScreenCapturePermission env.platformDarwin env.mediaStatus,
   [PermEffect.queryStatus])

/-- Environment of one `captureAndAnalyzeContext` run: outcome of each
external step. `none` models the corresponding call throwing. -/
structure PipelineEnv where
  perm : PermEnv
  screenshotResult : Option (List Char)
  ocrInitOk : Bool
  recognizeResult : Option (List Char)

/-- External actions the pipeline can perform. -/
inductive PipelineEffect where
  | permissionCheck
  | takeScreenshot
  | ocrInit
  | recognize
  deriving DecidableEq

/-- The record returned by the `catch` block of `captureAndAnalyzeContext`
(lines 186–193). -/
def degradedContextData : ContextData :=
  ⟨"Unknown", 0, [], [], [], []⟩

/-- The explanatory message of the permission-required branch (line 138). -/
def permissionRequiredMessage : List Char :=
  ("Screen recording permission needed for context detection. " ++
   "Please enable in System Preferences → Privacy & Security → Screen Recording.").toList

/-- The record returned by the permission-required branch (lines 134–141). -/
def permissionRequiredData : ContextData :=
  ⟨"Permission Required", 0, [], permissionRequiredMessage, [], []⟩

/-- `ContextHelper.captureAndAnalyzeContext` (lines 125–195): permission
gate, screenshot, OCR init, recognition, then classification and assembly;
any throw from the screenshot step onward is caught and mapped to
`degradedContextData`. Returns the `ContextData` paired with the trace of
external steps reached. -/
def captureAndAnalyzeContext (env : PipelineEnv) : ContextData × List PipelineEffect :=
  let hasPermission := (handlePermissionForContextCapture env.perm).1
  if !hasPermission && env.perm.platformDarwin then
    (permissionRequiredData, [PipelineEffect.permissionCheck])
  else
    match env.screenshotResult with
    | none =>
        (degradedContextData,
         [PipelineEffect.permissionCheck, PipelineEffect.takeScreenshot])
    | some screenshotPath =>
        if env.ocrInitOk then
          match env.recognizeResult with
          | none =>
              (degradedContextData,
               [PipelineEffect.permissionCheck, PipelineEffect.takeScreenshot,
                PipelineEffect.ocrInit, PipelineEffect.recognize])
          | some text =>
              let softwareDetection := detectCreativeSoftware text
              (⟨softwareDetection.software, softwareDetection.confidence,
                extractPanels text, text.take 500, screenshotPath,
                extractUIElements text⟩,
               [PipelineEffect.permissionCheck, PipelineEffect.takeScreenshot,
                PipelineEffect.ocrInit, PipelineEffect.recognize])
        else
          (degradedContextData,
           [PipelineEffect.permissionCheck, PipelineEffect.takeScreenshot,
            PipelineEffect.ocrInit])

/-! ### Helper lemmas about the classifier -/

lemma countMatches_le (lt : List Char) (patterns : List (List Char)) :
    countMatches lt patterns ≤ patterns.length :=
  List.length_filter_le _ _

lemma score_nonneg (lt : List Char) (sw : SoftwareSig) : 0 ≤ score lt sw :=
  div_nonneg (Nat.cast_nonneg _) (Nat.cast_nonneg _)

lemma score_le_one (lt : List Char) (sw : SoftwareSig) : score lt sw ≤ 1 := by
  rcases Nat.eq_zero_or_pos sw.patterns.length with h | h
  · have h0 : countMatches lt sw.patterns = 0 :=
      Nat.le_zero.mp (h ▸ countMatches_le lt sw.patterns)
    simp [score, h0]
  · rw [score, div_le_one (by exact_mod_cast h)]
    exact_mod_cast countMatches_le lt sw.patterns

/-- The fold of `detectStep` either keeps the initial best (every score is
at most the initial confidence) or returns the first signature whose score
beats everything before it and at least matches everything after it. -/
lemma foldl_detectStep_spec (lt : List Char) (l : List SoftwareSig) (best : Detection) :
    (List.foldl (detectStep lt) best l = best ∧ ∀ sw ∈ l, score lt sw ≤ best.confidence) ∨
    (∃ l₁ sw l₂, l = l₁ ++ sw :: l₂ ∧
      List.foldl (detectStep lt) best l = ⟨sw.name, score lt sw⟩ ∧
      best.confidence < score lt sw ∧
      (∀ x ∈ l₁, score lt x < score lt sw) ∧
      (∀ x ∈ l₂, score lt x ≤ score lt sw)) := by
  induction l generalizing best with
  | nil => exact Or.inl ⟨rfl, by simp⟩
  | cons a l ih =>
    rw [List.foldl_cons]
    by_cases h : best.confidence < score lt a
    · have hstep : detectStep lt best a = ⟨a.name, score lt a⟩ := by
        simp [detectStep, h]
      rw [hstep]
      rcases ih ⟨a.name, score lt a⟩ with ⟨heq, hle⟩ |
        ⟨l₁, sw, l₂, hsplit, heq, hlt, hbef, haft⟩
      · right
        exact ⟨[], a, l, by simp, heq, h, by simp, fun x hx => hle x hx⟩
      · right
        refine ⟨a :: l₁, sw, l₂, by rw [hsplit]; rfl, heq, h.trans hlt, ?_, haft⟩
        intro x hx
        rcases List.mem_cons.mp hx with rfl | hx'
        · exact hlt
        · exact hbef x hx'
    · have hstep : detectStep lt best a = best := by
        simp [detectStep, h]
      rw [hstep]
      rcases ih best with ⟨heq, hle⟩ | ⟨l₁, sw, l₂, hsplit, heq, hlt, hbef, haft⟩
      · left
        refine ⟨heq, ?_⟩
        intro x hx
        rcases List.mem_cons.mp hx with rfl | hx'
        · exact not_lt.mp h
        · exact hle x hx'
      · right
        refine ⟨a :: l₁, sw, l₂, by rw [hsplit]; rfl, heq, hlt, ?_, haft⟩
        intro x hx
        rcases List.mem_cons.mp hx with rfl | hx'
        · exact lt_of_le_of_lt (not_lt.mp h) hlt
        · exact hbef x hx'

lemma detect_confidence_nonneg (t : List Char) :
    0 ≤ (detectCreativeSoftware t).confidence := by
  rcases foldl_detectStep_spec (lowerText t) softwarePatterns ⟨"Unknown", 0⟩ with
    ⟨heq, _⟩ | ⟨l₁, sw, l₂, _, heq, _, _, _⟩
  · have hd : detectCreativeSoftware t = ⟨"Unknown", 0⟩ := heq
    rw [hd]
  · have hd : detectCreativeSoftware t = ⟨sw.name, score (lowerText t) sw⟩ := heq
    rw [hd]
    exact score_nonneg _ _

lemma detect_confidence_le_one (t : List Char) :
    (detectCreativeSoftware t).confidence ≤ 1 := by
  rcases foldl_detectStep_spec (lowerText t) softwarePatterns ⟨"Unknown", 0⟩ with
    ⟨heq, _⟩ | ⟨l₁, sw, l₂, _, heq, _, _, _⟩
  · have hd : detectCreativeSoftware t = ⟨"Unknown", 0⟩ := heq
    rw [hd]
    norm_num
  · have hd : detectCreativeSoftware t = ⟨sw.name, score (lowerText t) sw⟩ := heq
    rw [hd]
    exact score_le_one _ _

/-- If some catalogue signature has a positive score, the winner is not the
`"Unknown"` sentinel. -/
lemma detect_ne_unknown_of_score_pos (t : List Char) (sw : SoftwareSig)
    (hmem : sw ∈ softwarePatterns) (hpos : 0 < score (lowerText t) sw) :
    (detectCreativeSoftware t).software ≠ "Unknown" := by
  rcases foldl_detectStep_spec (lowerText t) softwarePatterns ⟨"Unknown", 0⟩ with
    ⟨heq, hle⟩ | ⟨l₁, sw', l₂, hsplit, heq, _, _, _⟩
  · exact absurd (lt_of_lt_of_le hpos (hle sw hmem)) (lt_irrefl 0)
  · have hd : detectCreativeSoftware t = ⟨sw'.name, score (lowerText t) sw'⟩ := heq
    rw [hd]
    have hall : ∀ s ∈ softwarePatterns, s.name ≠ "Unknown" := by decide
    refine hall sw' ?_
    rw [hsplit]
    exact List.mem_append_right _ (List.mem_cons_self _ _)

/-! ### Helper lemmas about first-occurrence deduplication -/

lemma dedupAux_sublist {α : Type} [DecidableEq α] (seen : List α) (l : List α) :
    (dedupAux seen l).Sublist l := by
  induction l generalizing seen with
  | nil => simp [dedupAux]
  | cons a l ih =>
    rw [dedupAux]
    split
    · exact (ih seen).cons a
    · exact (ih (a :: seen)).cons₂ a

lemma mem_dedupAux {α : Type} [DecidableEq α] (seen : List α) (l : List α) (x : α) :
    x ∈ dedupAux seen l ↔ x ∈ l ∧ x ∉ seen := by
  induction l generalizing seen with
  | nil => simp [dedupAux]
  | cons a l ih =>
    rw [dedupAux]
    split
    next hseen =>
      rw [ih, List.mem_cons]
      constructor
      · rintro ⟨hl, hs⟩
        exact ⟨Or.inr hl, hs⟩
      · rintro ⟨rfl | hl, hs⟩
        · exact absurd hseen hs
        · exact ⟨hl, hs⟩
    next hseen =>
      rw [List.mem_cons, ih, List.mem_cons, List.mem_cons]
      constructor
      · rintro (rfl | ⟨hl, hs⟩)
        · exact ⟨Or.inl rfl, hseen⟩
        · exact ⟨Or.inr hl, fun hx => hs (Or.inr hx)⟩
      · rintro ⟨rfl | hl, hs⟩
        · exact Or.inl rfl
        · by_cases hxa : x = a
          · exact Or.inl hxa
          · exact Or.inr ⟨hl, fun hx => hx.elim hxa hs⟩

lemma nodup_dedupAux {α : Type} [DecidableEq α] (seen : List α) (l : List α) :
    (dedupAux seen l).Nodup := by
  induction l generalizing seen with
  | nil => simp [dedupAux]
  | cons a l ih =>
    rw [dedupAux]
    split
    · exact ih seen
    · rw [List.nodup_cons]
      refine ⟨fun hmem => ?_, ih (a :: seen)⟩
      rw [mem_dedupAux] at hmem
      exact hmem.2 (List.mem_cons_self a seen)

/-! ### Claim theorems -/

/-- C2: for every input text the classifier's confidence lies in `[0, 1]`,
and whenever a signature wins (the result is not the `"Unknown"` sentinel)
the confidence is exactly that signature's matched-keyword count divided by
its total keyword count. -/
theorem classifier_confidence_spec (t : List Char) :
    0 ≤ (detectCreativeSoftware t).confidence ∧
    (detectCreativeSoftware t).confidence ≤ 1 ∧
    ((detectCreativeSoftware t).software ≠ "Unknown" →
      ∃ sw ∈ softwarePatterns,
        (detectCreativeSoftware t).software = sw.name ∧
        (detectCreativeSoftware t).confidence =
          (countMatches (lowerText t) sw.patterns : ℚ) / (sw.patterns.length : ℚ)) := by
  refine ⟨detect_confidence_nonneg t, detect_confidence_le_one t, ?_⟩
  intro hne
  rcases foldl_detectStep_spec (lowerText t) softwarePatterns ⟨"Unknown", 0⟩ with
    ⟨heq, _⟩ | ⟨l₁, sw, l₂, hsplit, heq, _, _, _⟩
  · have hd : detectCreativeSoftware t = ⟨"Unknown", 0⟩ := heq
    rw [hd] at hne
    exact absurd rfl hne
  · have hd : detectCreativeSoftware t = ⟨sw.name, score (lowerText t) sw⟩ := heq
    refine ⟨sw, ?_, by rw [hd], by rw [hd]; rfl⟩
    rw [hsplit]
    exact List.mem_append_right _ (List.mem_cons_self _ _)

/-- Witness for C2 at the concrete input `"photoshop"`, where the Photoshop
signature wins. -/
theorem classifier_confidence_spec_witness :
    ∃ sw ∈ softwarePatterns,
      (detectCreativeSoftware "photoshop".toList).software = sw.name ∧
      (detectCreativeSoftware "photoshop".toList).confidence =
        (countMatches (lowerText "photoshop".toList) sw.patterns : ℚ) /
          (sw.patterns.length : ℚ) :=
  (classifier_confidence_spec "photoshop".toList).2.2
    (detect_ne_unknown_of_score_pos "photoshop".toList
      ⟨"Adobe Photoshop",
       ["photoshop".toList, "layers".toList, "brush".toList, "filter".toList,
        "adjustment".toList]⟩
      (by decide)
      (by
        have hc : countMatches (lowerText "photoshop".toList)
            ["photoshop".toList, "layers".toList, "brush".toList, "filter".toList,
             "adjustment".toList] = 1 := by decide
        simp only [score, hc]
        norm_num))

/-- C3: either every signature scores `0` and the `"Unknown"` sentinel is
returned, or the catalogue splits around a winning signature whose score is
strictly above every earlier signature's score and at least every later
signature's score — i.e. the strictly highest score wins and ties keep the
first signature in catalogue order. Determinism is immediate because the
embedded classifier is a pure function of the text. -/
theorem detect_first_highest_wins (t : List Char) :
    (detectCreativeSoftware t = ⟨"Unknown", 0⟩ ∧
      ∀ sw ∈ softwarePatterns, score (lowerText t) sw = 0) ∨
    (∃ l₁ sw l₂, softwarePatterns = l₁ ++ sw :: l₂ ∧
      detectCreativeSoftware t = ⟨sw.name, score (lowerText t) sw⟩ ∧
      (∀ x ∈ l₁, score (lowerText t) x < score (lowerText t) sw) ∧
      (∀ x ∈ softwarePatterns, score (lowerText t) x ≤ score (lowerText t) sw)) := by
  rcases foldl_detectStep_spec (lowerText t) softwarePatterns ⟨"Unknown", 0⟩ with
    ⟨heq, hle⟩ | ⟨l₁, sw, l₂, hsplit, heq, _, hbef, haft⟩
  · left
    exact ⟨heq, fun sw hsw => le_antisymm (hle sw hsw) (score_nonneg _ _)⟩
  · right
    refine ⟨l₁, sw, l₂, hsplit, heq, hbef, ?_⟩
    intro x hx
    rw [hsplit] at hx
    rcases List.mem_append.mp hx with h₁ | h₂
    · exact (hbef x h₁).le
    · rcases List.mem_cons.mp h₂ with rfl | h₃
      · exact le_refl _
      · exact haft x h₃

/-- C10: the classifier reports `"Unknown"` exactly when the confidence is
`0`; any named application result carries a strictly positive confidence. -/
theorem unknown_iff_zero_confidence (t : List Char) :
    (detectCreativeSoftware t).software = "Unknown" ↔
      (detectCreativeSoftware t).confidence = 0 := by
  rcases foldl_detectStep_spec (lowerText t) softwarePatterns ⟨"Unknown", 0⟩ with
    ⟨heq, _⟩ | ⟨l₁, sw, l₂, hsplit, heq, hlt, _, _⟩
  · have hd : detectCreativeSoftware t = ⟨"Unknown", 0⟩ := heq
    rw [hd]
    simp
  · have hd : detectCreativeSoftware t = ⟨sw.name, score (lowerText t) sw⟩ := heq
    have hname : sw.name ≠ "Unknown" := by
      have hall : ∀ s ∈ softwarePatterns, s.name ≠ "Unknown" := by decide
      refine hall sw ?_
      rw [hsplit]
      exact List.mem_append_right _ (List.mem_cons_self _ _)
    have hpos : (0 : ℚ) < score (lowerText t) sw := hlt
    rw [hd]
    exact ⟨fun h => absurd h hname, fun h => absurd h (ne_of_gt hpos)⟩

/-- C4: for every input text, the `panels` and `ui_elements` outputs contain
a catalogue entry exactly when it occurs as a substring of the lower-cased
text, contain no duplicates, and list entries in catalogue declaration
order (as a sublist of the catalogue). -/
theorem extract_outputs_characterized (t : List Char) :
    ((∀ e, e ∈ extractPanels t ↔ e ∈ panelPatterns ∧ e <:+: lowerText t) ∧
      (extractPanels t).Nodup ∧ (extractPanels t).Sublist panelPatterns) ∧
    ((∀ e, e ∈ extractUIElements t ↔ e ∈ uiPatterns ∧ e <:+: lowerText t) ∧
      (extractUIElements t).Nodup ∧ (extractUIElements t).Sublist uiPatterns) := by
  refine ⟨⟨?_, ?_, ?_⟩, ?_, ?_, ?_⟩
  · intro e
    simp [extractPanels, List.mem_filter]
  · exact List.Nodup.filter _ (by decide)
  · exact List.filter_sublist _
  · intro e
    rw [extractUIElements, mem_dedupAux]
    simp [List.mem_filter]
  · exact nodup_dedupAux _ _
  · exact (dedupAux_sublist _ _).trans (List.filter_sublist _)

/-- C5: a text containing none of any signature's keyword patterns yields
the `"Unknown"` sentinel with confidence `0`; in particular the empty
string yields `"Unknown"`, `0`, empty panels and empty UI elements. -/
theorem no_keywords_unknown :
    (∀ t : List Char,
      (∀ sw ∈ softwarePatterns, ∀ p ∈ sw.patterns, ¬ p <:+: lowerText t) →
      detectCreativeSoftware t = ⟨"Unknown", 0⟩) ∧
    detectCreativeSoftware [] = ⟨"Unknown", 0⟩ ∧
    extractPanels [] = [] ∧ extractUIElements [] = [] := by
  have hgen : ∀ t : List Char,
      (∀ sw ∈ softwarePatterns, ∀ p ∈ sw.patterns, ¬ p <:+: lowerText t) →
      detectCreativeSoftware t = ⟨"Unknown", 0⟩ := ?_
  · exact ⟨hgen, hgen [] (by decide), by decide, by decide⟩
  intro t h
  have hscore : ∀ sw ∈ softwarePatterns, score (lowerText t) sw = 0 := by
    intro sw hsw
    have hcount : countMatches (lowerText t) sw.patterns = 0 := by
      rw [countMatches, List.length_eq_zero, List.filter_eq_nil_iff]
      intro p hp hdec
      exact h sw hsw p hp (of_decide_eq_true hdec)
    simp [score, hcount]
  rcases foldl_detectStep_spec (lowerText t) softwarePatterns ⟨"Unknown", 0⟩ with
    ⟨heq, _⟩ | ⟨l₁, sw, l₂, hsplit, heq, hlt, _, _⟩
  · exact heq
  · exfalso
    have hmem : sw ∈ softwarePatterns := by
      rw [hsplit]
      exact List.mem_append_right _ (List.mem_cons_self _ _)
    have h0 := hscore sw hmem
    rw [h0] at hlt
    exact lt_irrefl 0 hlt

/-- Witness for C5: a concrete keyword-free text is classified `"Unknown"`
with confidence `0`. -/
theorem no_keywords_unknown_witness :
    detectCreativeSoftware "zzz".toList = ⟨"Unknown", 0⟩ :=
  no_keywords_unknown.1 "zzz".toList (by decide)

/-- C6: any text containing the substrings `"premiere"`, `"timeline"`,
`"lumetri color"`, `"essential graphics"` and `"sequence"` makes all five
Premiere keywords match (the catalogue keyword is `"lumetri"`, a prefix of
`"lumetri color"`), so the classifier returns `"Adobe Premiere Pro"` with
confidence exactly `1`. -/
theorem premiere_full_match (t : List Char)
    (h₁ : "premiere".toList <:+: t)
    (h₂ : "timeline".toList <:+: t)
    (h₃ : "lumetri color".toList <:+: t)
    (h₄ : "essential graphics".toList <:+: t)
    (h₅ : "sequence".toList <:+: t) :
    detectCreativeSoftware t = ⟨"Adobe Premiere Pro", 1⟩ := by
  have hmap : ∀ p : List Char, List.map Char.toLower p = p → p <:+: t →
      p <:+: lowerText t := by
    intro p hp h
    have h' := List.IsInfix.map Char.toLower h
    rw [hp] at h'
    exact h'
  have g₁ : "premiere".toList <:+: lowerText t := hmap _ (by decide) h₁
  have g₂ : "timeline".toList <:+: lowerText t := hmap _ (by decide) h₂
  have g₃ : "lumetri".toList <:+: lowerText t :=
    hmap _ (by decide)
      (List.IsInfix.trans (by decide : "lumetri".toList <:+: "lumetri color".toList) h₃)
  have g₄ : "essential graphics".toList <:+: lowerText t := hmap _ (by decide) h₄
  have g₅ : "sequence".toList <:+: lowerText t := hmap _ (by decide) h₅
  have hfil : List.filter (fun pattern => decide (pattern <:+: lowerText t))
      ["premiere".toList, "timeline".toList, "lumetri".toList,
       "essential graphics".toList, "sequence".toList] =
      ["premiere".toList, "timeline".toList, "lumetri".toList,
       "essential graphics".toList, "sequence".toList] := by
    rw [List.filter_eq_self]
    intro a ha
    simp only [List.mem_cons, List.not_mem_nil, or_false] at ha
    rcases ha with rfl | rfl | rfl | rfl | rfl
    · exact decide_eq_true g₁
    · exact decide_eq_true g₂
    · exact decide_eq_true g₃
    · exact decide_eq_true g₄
    · exact decide_eq_true g₅
  have hscore : score (lowerText t)
      ⟨"Adobe Premiere Pro",
       ["premiere".toList, "timeline".toList, "lumetri".toList,
        "essential graphics".toList, "sequence".toList]⟩ = 1 := by
    simp only [score, countMatches, hfil]
    norm_num
  rcases foldl_detectStep_spec (lowerText t) softwarePatterns ⟨"Unknown", 0⟩ with
    ⟨heq, hle⟩ | ⟨l₁, sw, l₂, hsplit, heq, _, hbef, _⟩
  · exfalso
    have hmem : (⟨"Adobe Premiere Pro",
        ["premiere".toList, "timeline".toList, "lumetri".toList,
         "essential graphics".toList, "sequence".toList]⟩ : SoftwareSig) ∈
        softwarePatterns := by decide
    have hcontra := hle _ hmem
    rw [hscore] at hcontra
    exact absurd hcontra (by norm_num)
  · have hhead := congrArg List.head? hsplit
    have h0 : softwarePatterns.head? =
        some ⟨"Adobe Premiere Pro",
          ["premiere".toList, "timeline".toList, "lumetri".toList,
           "essential graphics".toList, "sequence".toList]⟩ := rfl
    cases l₁ with
    | nil =>
      rw [h0, List.nil_append, List.head?_cons] at hhead
      have hsw := Option.some.inj hhead
      have hd : detectCreativeSoftware t = ⟨sw.name, score (lowerText t) sw⟩ := heq
      rw [hd, ← hsw, hscore]
    | cons b l₁' =>
      rw [h0, List.cons_append, List.head?_cons] at hhead
      have hb := Option.some.inj hhead
      have hlt' := hbef b (List.mem_cons_self _ _)
      rw [← hb, hscore] at hlt'
      exact absurd hlt' (not_lt.mpr (score_le_one _ _))

/-- Witness for C6 at a concrete text containing all five substrings. -/
theorem premiere_full_match_witness :
    detectCreativeSoftware
        "premiere timeline lumetri color essential graphics sequence".toList =
      ⟨"Adobe Premiere Pro", 1⟩ :=
  premiere_full_match _ (by decide) (by decide) (by decide) (by decide) (by decide)

/-! ### Pipeline branch evaluation lemmas -/

lemma gate_false_of_passed (perm : PermEnv)
    (hOr : (handlePermissionForContextCapture perm).1 = true ∨
      perm.platformDarwin = false) :
    (!(handlePermissionForContextCapture perm).1 && perm.platformDarwin) = false := by
  rcases hOr with h | h <;> simp [h]

lemma capture_permission_branch (env : PipelineEnv)
    (h : (!(handlePermissionForContextCapture env.perm).1 &&
      env.perm.platformDarwin) = true) :
    captureAndAnalyzeContext env =
      (permissionRequiredData, [PipelineEffect.permissionCheck]) := by
  simp [captureAndAnalyzeContext, h]

lemma capture_shot_fail (env : PipelineEnv)
    (h : (!(handlePermissionForContextCapture env.perm).1 &&
      env.perm.platformDarwin) = false)
    (hs : env.screenshotResult = none) :
    captureAndAnalyzeContext env =
      (degradedContextData,
       [PipelineEffect.permissionCheck, PipelineEffect.takeScreenshot]) := by
  simp [captureAndAnalyzeContext, h, hs]

lemma capture_init_fail (env : PipelineEnv) (p : List Char)
    (h : (!(handlePermissionForContextCapture env.perm).1 &&
      env.perm.platformDarwin) = false)
    (hs : env.screenshotResult = some p)
    (hi : env.ocrInitOk = false) :
    captureAndAnalyzeContext env =
      (degradedContextData,
       [PipelineEffect.permissionCheck, PipelineEffect.takeScreenshot,
        PipelineEffect.ocrInit]) := by
  simp [captureAndAnalyzeContext, h, hs, hi]

lemma capture_recog_fail (env : PipelineEnv) (p : List Char)
    (h : (!(handlePermissionForContextCapture env.perm).1 &&
      env.perm.platformDarwin) = false)
    (hs : env.screenshotResult = some p)
    (hi : env.ocrInitOk = true)
    (hr : env.recognizeResult = none) :
    captureAndAnalyzeContext env =
      (degradedContextData,
       [PipelineEffect.permissionCheck, PipelineEffect.takeScreenshot,
        PipelineEffect.ocrInit, PipelineEffect.recognize]) := by
  simp [captureAndAnalyzeContext, h, hs, hi, hr]

lemma capture_success (env : PipelineEnv) (p text : List Char)
    (h : (!(handlePermissionForContextCapture env.perm).1 &&
      env.perm.platformDarwin) = false)
    (hs : env.screenshotResult = some p)
    (hi : env.ocrInitOk = true)
    (hr : env.recognizeResult = some text) :
    captureAndAnalyzeContext env =
      (⟨(detectCreativeSoftware text).software,
        (detectCreativeSoftware text).confidence,
        extractPanels text, text.take 500, p, extractUIElements text⟩,
       [PipelineEffect.permissionCheck, PipelineEffect.takeScreenshot,
        PipelineEffect.ocrInit, PipelineEffect.recognize]) := by
  simp [captureAndAnalyzeContext, h, hs, hi, hr]

/-- C1: every run of the pipeline returns a well-formed `ContextData`
(the embedding is a total function, so no exception can escape, and the
confidence is always within `[0, 1]`), and whenever the permission gate is
passed but any step from capture onward (screenshot, OCR initialization,
recognition) fails, the result is exactly the fully-degraded record
`⟨"Unknown", 0, [], "", "", []⟩`, never a partially-filled one. -/
theorem pipeline_total_and_degraded (env : PipelineEnv) :
    0 ≤ (captureAndAnalyzeContext env).1.confidence ∧
    (captureAndAnalyzeContext env).1.confidence ≤ 1 ∧
    (((handlePermissionForContextCapture env.perm).1 = true ∨
        env.perm.platformDarwin = false) →
      (env.screenshotResult = none ∨ env.ocrInitOk = false ∨
        env.recognizeResult = none) →
      (captureAndAnalyzeContext env).1 = degradedContextData) := by
  by_cases hg : (!(handlePermissionForContextCapture env.perm).1 &&
      env.perm.platformDarwin) = true
  · rw [capture_permission_branch env hg]
    refine ⟨le_refl 0, by norm_num [permissionRequiredData], ?_⟩
    intro hOr _
    rw [gate_false_of_passed env.perm hOr] at hg
    exact absurd hg Bool.false_ne_true
  · have hg' : (!(handlePermissionForContextCapture env.perm).1 &&
        env.perm.platformDarwin) = false := by
      cases hB : (!(handlePermissionForContextCapture env.perm).1 &&
          env.perm.platformDarwin) with
      | false => rfl
      | true => exact absurd hB hg
    rcases hshot : env.screenshotResult with _ | p
    · rw [capture_shot_fail env hg' hshot]
      exact ⟨le_refl 0, by norm_num [degradedContextData], fun _ _ => rfl⟩
    · cases hinit : env.ocrInitOk with
      | false =>
        rw [capture_init_fail env p hg' hshot hinit]
        exact ⟨le_refl 0, by norm_num [degradedContextData], fun _ _ => rfl⟩
      | true =>
        rcases hrecog : env.recognizeResult with _ | text
        · rw [capture_recog_fail env p hg' hshot hinit hrecog]
          exact ⟨le_refl 0, by norm_num [degradedContextData], fun _ _ => rfl⟩
        · rw [capture_success env p text hg' hshot hinit hrecog]
          refine ⟨detect_confidence_nonneg text, detect_confidence_le_one text, ?_⟩
          intro _ hFail
          exfalso
          rcases hFail with hf | hf | hf
          · exact Option.noConfusion hf
          · exact Bool.noConfusion hf
          · exact Option.noConfusion hf

/-- Witness for C1: a run whose screenshot step throws yields exactly the
fully-degraded record. -/
theorem pipeline_total_and_degraded_witness :
    (captureAndAnalyzeContext ⟨⟨false, none, true, true, none⟩, none, true, none⟩).1 =
      degradedContextData :=
  (pipeline_total_and_degraded
      ⟨⟨false, none, true, true, none⟩, none, true, none⟩).2.2
    (Or.inr rfl) (Or.inl rfl)

/-- C7: on every successful run (gate passed, screenshot, OCR init and
recognition all succeed), `text_content` is exactly the first 500
characters of the raw recognized text — taken from the original-case text,
not from the classifier's lower-cased working copy. -/
theorem text_content_truncation (env : PipelineEnv) (p text : List Char)
    (hOr : (handlePermissionForContextCapture env.perm).1 = true ∨
      env.perm.platformDarwin = false)
    (hs : env.screenshotResult = some p)
    (hi : env.ocrInitOk = true)
    (hr : env.recognizeResult = some text) :
    (captureAndAnalyzeContext env).1.text_content = text.take 500 := by
  rw [capture_success env p text (gate_false_of_passed env.perm hOr) hs hi hr]

/-- Witness for C7 at a concrete successful run with mixed-case text. -/
theorem text_content_truncation_witness :
    (captureAndAnalyzeContext
        ⟨⟨false, none, true, true, none⟩, some "shot.png".toList, true,
         some "AbC".toList⟩).1.text_content = "AbC".toList.take 500 :=
  text_content_truncation _ _ _ (Or.inl rfl) rfl rfl rfl

/-- C8: when the platform requires consent and the permission helper still
reports not granted after its prompt-and-recheck, the pipeline returns the
`"Permission Required"` record (confidence `0`, empty panels and elements,
the explanatory message, empty screenshot path) and never reaches the
screen capturer. -/
theorem permission_denied_bypasses_capture (env : PipelineEnv)
    (hdar : env.perm.platformDarwin = true)
    (hperm : (handlePermissionForContextCapture env.perm).1 = false) :
    (captureAndAnalyzeContext env).1 = permissionRequiredData ∧
    PipelineEffect.takeScreenshot ∉ (captureAndAnalyzeContext env).2 := by
  have hg : (!(handlePermissionForContextCapture env.perm).1 &&
      env.perm.platformDarwin) = true := by
    rw [hperm, hdar]
    rfl
  rw [capture_permission_branch env hg]
  exact ⟨rfl, by decide⟩

/-- Witness for C8: macOS, permission denied and the throwaway capture
fails, so the helper reports `false` and the pipeline bypasses capture. -/
theorem permission_denied_bypasses_capture_witness :
    (captureAndAnalyzeContext
        ⟨⟨true, some false, false, true, some false⟩, some "x".toList, true,
         some "y".toList⟩).1 = permissionRequiredData ∧
    PipelineEffect.takeScreenshot ∉
      (captureAndAnalyzeContext
        ⟨⟨true, some false, false, true, some false⟩, some "x".toList, true,
         some "y".toList⟩).2 :=
  permission_denied_bypasses_capture _ rfl rfl

/-- Counterexample for C9 as stated: the repository also contains a second
copy of `handlePermissionForContextCapture` (lines 104–113 of the packed
`PermissionsHelper.ts`) which, on a consent-gated platform with permission
not granted, performs no throwaway capture and no re-query: it returns
`false` directly — even in an environment where the re-query would have
reported the permission as granted, so the claimed prompt-and-recheck
behavior does not hold of that copy. -/
theorem prompt_second_copy_counterexample :
    checkScreenCapturePermission true (some false) = false ∧
    handlePermissionForContextCaptureV2 ⟨true, some false, true, true, some true⟩ =
      (false, [PermEffect.queryStatus]) ∧
    PermEffect.throwawayCapture ∉
      (handlePermissionForContextCaptureV2
        ⟨true, some false, true, true, some true⟩).2 := by
  refine ⟨rfl, rfl, ?_⟩
  decide

/-- C9 (amended): the primary copy of the permission-prompting operation
(lines 33–64) returns `true` immediately when permission is already
granted; otherwise it attempts one throwaway capture, deletes the
temporary file with deletion failure ignored (the result does not depend
on the deletion outcome), re-queries the permission state and returns that
post-attempt state, `false` when the throwaway capture itself fails. The
second copy (lines 104–113) instead returns the initial permission state
directly, performing no throwaway capture. -/
theorem prompt_behavior (env : PermEnv) :
    (checkScreenCapturePermission env.platformDarwin env.mediaStatus = true →
      handlePermissionForContextCapture env = (true, [PermEffect.queryStatus])) ∧
    (checkScreenCapturePermission env.platformDarwin env.mediaStatus = false →
      env.captureAttemptOk = true →
      handlePermissionForContextCapture env =
        (checkScreenCapturePermission env.platformDarwin env.mediaStatusRequery,
         [PermEffect.queryStatus, PermEffect.throwawayCapture,
          PermEffect.unlinkTemp, PermEffect.requeryStatus])) ∧
    (checkScreenCapturePermission env.platformDarwin env.mediaStatus = false →
      env.captureAttemptOk = false →
      handlePermissionForContextCapture env =
        (false, [PermEffect.queryStatus, PermEffect.throwawayCapture])) ∧
    (∀ u : Bool,
      handlePermissionForContextCapture
        ⟨env.platformDarwin, env.mediaStatus, env.captureAttemptOk, u,
         env.mediaStatusRequery⟩ =
        handlePermissionForContextCapture env) ∧
    handlePermissionForContextCaptureV2 env =
      (checkScreenCapturePermission env.platformDarwin env.mediaStatus,
       [PermEffect.queryStatus]) := by
  have hdarwin : ∀ st, checkScreenCapturePermission env.platformDarwin st = false →
      env.platformDarwin = true := by
    intro st h
    cases hd : env.platformDarwin with
    | false =>
      rw [hd] at h
      simp [checkScreenCapturePermission] at h
    | true => rfl
  refine ⟨?_, ?_, ?_, fun u => rfl, rfl⟩
  · intro h
    simp [handlePermissionForContextCapture, h]
  · intro h hc
    have hd := hdarwin _ h
    rw [hd] at h
    simp [handlePermissionForContextCapture, h, hc, hd]
  · intro h hc
    have hd := hdarwin _ h
    rw [hd] at h
    simp [handlePermissionForContextCapture, h, hc, hd]

/-- Witness for C9 (amended): macOS, permission initially denied, capture
attempt succeeds, user grants during the prompt — the helper performs the
probe-and-recheck and returns the re-queried state. -/
theorem prompt_behavior_witness :
    handlePermissionForContextCapture ⟨true, some false, true, true, some true⟩ =
      (checkScreenCapturePermission true (some true),
       [PermEffect.queryStatus, PermEffect.throwawayCapture,
        PermEffect.unlinkTemp, PermEffect.requeryStatus]) :=
  (prompt_behavior ⟨true, some false, true, true, some true⟩).2.1 rfl rfl

end CreativEase
